import Mathlib

/-!
Verification of the journalentry package (src/journalentry.go) against its
natural-language specification.  The Go code is shallowly embedded: pure
string/byte manipulations become functions on `List Char`, the interactive
prompt loop becomes a function over an explicit list of input lines, and the
I/O performed by `New` is abstracted into an environment record holding the
outcome of each system call the function makes.
-/

namespace Journalentry

/-! ## Characters and decimal digits -/

/-- ASCII decimal digit test, the semantics of `\d` in Go's regexp package. -/
def isDigit (c : Char) : Bool := '0' ≤ c && c ≤ '9'

/-- ASCII whitespace as recognised by `strings.TrimSpace` (the inputs the
prompter handles are ASCII; the Unicode cases of `unicode.IsSpace` are not
reachable from the claims). `\x0b` and `\x0c` are vertical tab and form feed. -/
def isSpace (c : Char) : Bool :=
  c = ' ' || c = '\t' || c = '\n' || c = '\r' || c.toNat = 11 || c.toNat = 12

/-- The character for a single decimal digit, as produced by Go's integer
formatting.  Only applied to values `< 10`. -/
def digitChar : Nat → Char
  | 0 => '0' | 1 => '1' | 2 => '2' | 3 => '3' | 4 => '4'
  | 5 => '5' | 6 => '6' | 7 => '7' | 8 => '8' | _ => '9'

/-- Numeric value of a decimal digit character, `none` on non-digits. -/
def digitVal (c : Char) : Option Nat :=
  if isDigit c then some (c.toNat - '0'.toNat) else none

def digitValD (c : Char) : Nat := (digitVal c).getD 0

theorem digitVal_digitChar (k : Nat) (h : k < 10) : digitVal (digitChar k) = some k := by
  interval_cases k <;> decide

theorem isDigit_digitChar (k : Nat) : isDigit (digitChar k) = true := by
  unfold digitChar
  split <;> decide

theorem digitChar_ne_slash (k : Nat) : digitChar k ≠ '/' := by
  unfold digitChar
  split <;> decide

/-! ## Decimal notation for natural numbers

`natChars n` is the usual base-10 notation of `n`, most significant digit
first, as produced by Go's `strconv`-based formatting of integers.  It is
defined through a structurally decreasing fuel parameter so that it reduces
inside the kernel. -/

def natCharsAux : Nat → Nat → List Char
  | 0, _ => []
  | fuel + 1, n =>
    if n < 10 then [digitChar n] else natCharsAux fuel (n / 10) ++ [digitChar (n % 10)]

def natChars (n : Nat) : List Char := natCharsAux (n + 1) n

theorem natCharsAux_irrel (f₁ : Nat) : ∀ f₂ n, n < f₁ → n < f₂ →
    natCharsAux f₁ n = natCharsAux f₂ n := by
  induction f₁ with
  | zero => intro f₂ n h₁ _; omega
  | succ f₁' ih =>
    intro f₂ n h₁ h₂
    cases f₂ with
    | zero => omega
    | succ f₂' =>
      by_cases h : n < 10
      · simp [natCharsAux, h]
      · have hd : n / 10 < n := Nat.div_lt_self (by omega) (by omega)
        simp only [natCharsAux, if_neg h]
        rw [ih f₂' (n / 10) (by omega) (by omega)]

/-- The recursion equation of `natChars`. -/
theorem natChars_eq (n : Nat) :
    natChars n = if n < 10 then [digitChar n] else natChars (n / 10) ++ [digitChar (n % 10)] := by
  by_cases h : n < 10
  · simp [natChars, natCharsAux, h]
  · have hd : n / 10 < n := Nat.div_lt_self (by omega) (by omega)
    have h1 : natCharsAux (n + 1) n = natCharsAux n (n / 10) ++ [digitChar (n % 10)] := by
      simp [natCharsAux, h]
    simp only [natChars, if_neg h, h1]
    rw [natCharsAux_irrel n (n / 10 + 1) (n / 10) (by omega) (by omega)]

theorem natChars_ne_nil (n : Nat) : natChars n ≠ [] := by
  rw [natChars_eq]
  split <;> simp

theorem natChars_all_digit (n : Nat) : ∀ c ∈ natChars n, isDigit c = true := by
  induction n using Nat.strong_induction_on with
  | _ n ih =>
    rw [natChars_eq]
    split
    · intro c hc
      simp only [List.mem_singleton] at hc
      subst hc
      exact isDigit_digitChar n
    · intro c hc
      rcases List.mem_append.1 hc with h | h
      · exact ih (n / 10) (Nat.div_lt_self (by omega) (by omega)) c h
      · simp only [List.mem_singleton] at h
        subst h
        exact isDigit_digitChar (n % 10)

/-- Value of a digit string read left to right, the way a decimal parser
accumulates it. -/
def charsVal (l : List Char) : Nat := l.foldl (fun a c => a * 10 + digitValD c) 0

theorem charsVal_natChars (n : Nat) : charsVal (natChars n) = n := by
  induction n using Nat.strong_induction_on with
  | _ n ih =>
    rw [natChars_eq]
    split
    · next h =>
      simp [charsVal, digitValD, digitVal_digitChar n h]
    · next h =>
      have hd : n / 10 < n := Nat.div_lt_self (by omega) (by omega)
      have hm : n % 10 < 10 := Nat.mod_lt _ (by omega)
      simp only [charsVal, List.foldl_append, List.foldl_cons, List.foldl_nil]
      have : List.foldl (fun a c => a * 10 + digitValD c) 0 (natChars (n / 10)) = n / 10 :=
        ih (n / 10) hd
      rw [this]
      simp [digitValD, digitVal_digitChar _ hm]
      omega

/-- Two-digit zero-padded notation (Go layout elements `01`, `02`).  Only
applied to values `< 100`. -/
def pad2 (n : Nat) : List Char := [digitChar (n / 10 % 10), digitChar (n % 10)]

/-- Four-digit zero-padded notation (Go layout element `2006`).  Only applied
to values `< 10000`. -/
def pad4 (n : Nat) : List Char :=
  [digitChar (n / 1000 % 10), digitChar (n / 100 % 10), digitChar (n / 10 % 10),
   digitChar (n % 10)]

/-! ## takeWhile / dropWhile over an all-satisfying prefix -/

theorem takeWhile_append_stop {α : Type} (p : α → Bool) (l₁ : List α) (c : α) (l₂ : List α)
    (h : ∀ a ∈ l₁, p a = true) (hc : p c = false) :
    (l₁ ++ c :: l₂).takeWhile p = l₁ := by
  induction l₁ with
  | nil => simp [List.takeWhile, hc]
  | cons x xs ih =>
    have hx : p x = true := h x (List.mem_cons_self x xs)
    simp only [List.cons_append, List.takeWhile, hx]
    exact congrArg (List.cons x) (ih (fun a ha => h a (List.mem_cons_of_mem x ha)))

theorem dropWhile_append_stop {α : Type} (p : α → Bool) (l₁ : List α) (c : α) (l₂ : List α)
    (h : ∀ a ∈ l₁, p a = true) (hc : p c = false) :
    (l₁ ++ c :: l₂).dropWhile p = c :: l₂ := by
  induction l₁ with
  | nil => simp [List.dropWhile, hc]
  | cons x xs ih =>
    have hx : p x = true := h x (List.mem_cons_self x xs)
    simp only [List.cons_append, List.dropWhile, hx]
    exact ih (fun a ha => h a (List.mem_cons_of_mem x ha))

/-! ## Primitive stream matchers

These model the (deterministic parts of the) regular-expression and layout
matching that the Go code delegates to `regexp` and `time.Parse`: each one
consumes a prefix of the character stream and returns the remainder, or
`none` when the prefix does not fit. -/

/-- Consume exactly `n` characters all satisfying `q`. -/
def matchPred (q : Char → Bool) : Nat → List Char → Option (List Char)
  | 0, s => some s
  | _ + 1, [] => none
  | n + 1, c :: s => if q c then matchPred q n s else none

/-- Consume one fixed character. -/
def matchChar (c : Char) : List Char → Option (List Char)
  | [] => none
  | x :: s => if x = c then some s else none

/-- Consume a fixed literal. -/
def matchLit : List Char → List Char → Option (List Char)
  | [], s => some s
  | _ :: _, [] => none
  | c :: l, x :: s => if x = c then matchLit l s else none

theorem matchChar_cons (c : Char) (r : List Char) : matchChar c (c :: r) = some r := by
  simp [matchChar]

theorem matchLit_self (l : List Char) : ∀ r, matchLit l (l ++ r) = some r := by
  induction l with
  | nil => intro r; rfl
  | cons c l ih => intro r; simp [matchLit, ih]

theorem matchChar_eq_some {c : Char} {s r : List Char} :
    matchChar c s = some r ↔ s = c :: r := by
  cases s with
  | nil => simp [matchChar]
  | cons x s =>
    simp only [matchChar]
    by_cases h : x = c
    · subst h; simp
    · simp [h, Ne.symm h]

theorem matchLit_eq_some {l : List Char} : ∀ {s r : List Char},
    matchLit l s = some r ↔ s = l ++ r := by
  induction l with
  | nil => intro s r; simp [matchLit]
  | cons c l ih =>
    intro s r
    cases s with
    | nil => simp [matchLit]
    | cons x s =>
      simp only [matchLit, List.cons_append]
      by_cases h : x = c
      · subst h; simp [ih]
      · simp [h]

theorem matchPred_eq_some {q : Char → Bool} : ∀ {n : Nat} {s r : List Char},
    matchPred q n s = some r ↔ ∃ p, s = p ++ r ∧ p.length = n ∧ p.all q = true := by
  intro n
  induction n with
  | zero =>
    intro s r
    simp only [matchPred, Option.some.injEq]
    constructor
    · intro h
      exact ⟨[], by simp [h], rfl, rfl⟩
    · rintro ⟨p, hs, hl, _⟩
      rw [List.length_eq_zero.1 hl] at hs
      simpa using hs
  | succ n ih =>
    intro s r
    cases s with
    | nil =>
      simp only [matchPred]
      constructor
      · intro h; exact absurd h (by simp)
      · rintro ⟨p, hs, hl, _⟩
        rcases p with _ | ⟨a, p⟩
        · simp at hl
        · simp at hs
    | cons c s =>
      simp only [matchPred]
      by_cases hq : q c = true
      · rw [if_pos hq, ih]
        constructor
        · rintro ⟨p, hs, hl, hall⟩
          exact ⟨c :: p, by simp [hs], by simp [hl], by simp [hall, hq]⟩
        · rintro ⟨p, hs, hl, hall⟩
          rcases p with _ | ⟨a, p⟩
          · simp at hl
          · simp only [List.cons_append, List.cons.injEq] at hs
            rcases hs with ⟨hac, hs⟩
            subst hac
            refine ⟨p, hs, by simpa using hl, ?_⟩
            simp only [List.all_cons, Bool.and_eq_true] at hall
            exact hall.2
      · rw [if_neg hq]
        constructor
        · intro h; exact absurd h (by simp)
        · rintro ⟨p, hs, hl, hall⟩
          rcases p with _ | ⟨a, p⟩
          · simp at hl
          · simp only [List.cons_append, List.cons.injEq] at hs
            rcases hs with ⟨hac, _⟩
            subst hac
            simp only [List.all_cons, Bool.and_eq_true] at hall
            exact absurd hall.1 hq

/-! ## Decimal parsing from a stream -/

/-- Parse a maximal nonempty run of decimal digits (the way a line-oriented
numeric field is read back). -/
def parseNat (s : List Char) : Option (Nat × List Char) :=
  let ds := s.takeWhile isDigit
  if ds = [] then none else some (charsVal ds, s.dropWhile isDigit)

theorem parseNat_natChars (n : Nat) (c : Char) (hc : isDigit c = false) :
    ∀ r, parseNat (natChars n ++ c :: r) = some (n, c :: r) := by
  intro r
  have h1 := takeWhile_append_stop isDigit (natChars n) c r (natChars_all_digit n) hc
  have h2 := dropWhile_append_stop isDigit (natChars n) c r (natChars_all_digit n) hc
  simp only [parseNat, h1, h2, charsVal_natChars]
  rw [if_neg (natChars_ne_nil n)]

/-- Parse exactly two digits (Go layout elements `01`, `02`). -/
def parse2 : List Char → Option (Nat × List Char)
  | a :: b :: r =>
    match digitVal a, digitVal b with
    | some x, some y => some (x * 10 + y, r)
    | _, _ => none
  | _ => none

/-- Parse exactly four digits (Go layout element `2006`). -/
def parse4 : List Char → Option (Nat × List Char)
  | a :: b :: c :: d :: r =>
    match digitVal a, digitVal b, digitVal c, digitVal d with
    | some x1, some x2, some x3, some x4 => some (((x1 * 10 + x2) * 10 + x3) * 10 + x4, r)
    | _, _, _, _ => none
  | _ => none

/-- Parse one or two digits (Go layout element `2`, the unpadded day). -/
def parseDay2 : List Char → Option (Nat × List Char)
  | [] => none
  | a :: r =>
    match digitVal a with
    | none => none
    | some x =>
      match r with
      | [] => some (x, [])
      | b :: r2 =>
        match digitVal b with
        | some y => some (x * 10 + y, r2)
        | none => some (x, b :: r2)

theorem parse2_pad2 (n : Nat) (h : n < 100) : ∀ r, parse2 (pad2 n ++ r) = some (n, r) := by
  intro r
  have h1 : n / 10 % 10 < 10 := Nat.mod_lt _ (by omega)
  have h2 : n % 10 < 10 := Nat.mod_lt _ (by omega)
  simp only [pad2, List.cons_append, List.nil_append, parse2,
    digitVal_digitChar _ h1, digitVal_digitChar _ h2]
  congr 1
  congr 1
  omega

theorem parse4_pad4 (n : Nat) (h : n < 10000) : ∀ r, parse4 (pad4 n ++ r) = some (n, r) := by
  intro r
  have h1 : n / 1000 % 10 < 10 := Nat.mod_lt _ (by omega)
  have h2 : n / 100 % 10 < 10 := Nat.mod_lt _ (by omega)
  have h3 : n / 10 % 10 < 10 := Nat.mod_lt _ (by omega)
  have h4 : n % 10 < 10 := Nat.mod_lt _ (by omega)
  simp only [pad4, List.cons_append, List.nil_append, parse4,
    digitVal_digitChar _ h1, digitVal_digitChar _ h2, digitVal_digitChar _ h3,
    digitVal_digitChar _ h4]
  congr 1
  congr 1
  omega

theorem parseDay2_natChars (d : Nat) (hd : d < 100) (c : Char) (hc : digitVal c = none) :
    ∀ r, parseDay2 (natChars d ++ c :: r) = some (d, c :: r) := by
  intro r
  by_cases h : d < 10
  · rw [natChars_eq, if_pos h]
    simp [parseDay2, digitVal_digitChar d h, hc]
  · rw [natChars_eq, if_neg h]
    have h10 : d / 10 < 10 := by omega
    rw [natChars_eq, if_pos h10]
    have hm : d % 10 < 10 := Nat.mod_lt _ (by omega)
    simp only [List.cons_append, List.nil_append, parseDay2,
      digitVal_digitChar _ h10, digitVal_digitChar _ hm]
    congr 1
    congr 1
    omega

/-! ## The Entry data model (src/journalentry.go:27-36)

`Seconds` is a Go `uint16` and the three mood fields are `uint8`; they are
embedded as `Nat`.  No operation in the claims produces a value anywhere near
the wrap-around points (the prompter writes only 1..5), so no `% 2^w`
reduction is needed.  `ModTime` is an abstract timestamp. -/

structure Entry where
  Seconds : Nat
  LowMood : Nat
  HighMood : Nat
  AverageMood : Nat
  Body : List Char
  Path : String
  ModTime : Nat
deriving DecidableEq, Repr

/-- The three rating fields the prompter can fill in. -/
inductive MoodField where
  | high
  | low
  | avg
deriving DecidableEq, Repr

/-- Prompt text printed for a field (src/journalentry.go:149,152,155). -/
def promptString : MoodField → String
  | .high => "High mood for the day? (1-5) "
  | .low => "Low mood for the day? (1-5) "
  | .avg => "Average mood for the day? (1-5) "

/-- The setters setHighMood / setLowMood / setAvgMood
(src/journalentry.go:134-144). -/
def setField : MoodField → Nat → Entry → Entry
  | .high, r, e => { e with HighMood := r }
  | .low, r, e => { e with LowMood := r }
  | .avg, r, e => { e with AverageMood := r }

/-- Read a rating field. -/
def getField : MoodField → Entry → Nat
  | .high, e => e.HighMood
  | .low, e => e.LowMood
  | .avg, e => e.AverageMood

/-- prompts() (src/journalentry.go:146-158): one (prompt, setter) pair per
mood field whose current value is 0.  The Go function stores the pairs in a
`map[string]func(uint8)`; this list records which pairs are present, in
source order.  Because `range` over a Go map visits keys in an unspecified
order, a run of the prompter is modelled over an arbitrary permutation of
this list. -/
def promptFields (e : Entry) : List MoodField :=
  (if e.HighMood = 0 then [MoodField.high] else []) ++
    (if e.LowMood = 0 then [MoodField.low] else []) ++
      (if e.AverageMood = 0 then [MoodField.avg] else [])

theorem setField_frame (g : MoodField) (v : Nat) (e : Entry) :
    (setField g v e).Seconds = e.Seconds ∧ (setField g v e).Body = e.Body ∧
      (setField g v e).Path = e.Path ∧ (setField g v e).ModTime = e.ModTime := by
  cases g <;> exact ⟨rfl, rfl, rfl, rfl⟩

theorem getField_setField_ne (f g : MoodField) (v : Nat) (e : Entry) (h : f ≠ g) :
    getField f (setField g v e) = getField f e := by
  cases f <;> cases g <;> first
    | exact absurd rfl h
    | rfl

theorem getField_setField_eq (f : MoodField) (v : Nat) (e : Entry) :
    getField f (setField f v e) = v := by
  cases f <;> rfl

theorem mem_promptFields (f : MoodField) (e : Entry) :
    f ∈ promptFields e ↔ getField f e = 0 := by
  cases f <;>
    simp only [promptFields, getField, List.mem_append] <;>
    · constructor
      · intro h
        rcases h with (h | h) | h <;>
          · split at h <;> simp_all
      · intro h
        simp [h]

/-! ## The metadata prompter (src/journalentry.go:103-127)

The `io.Reader` handed to PromptForMetadata is modelled as the list of
newline-terminated lines `bufio.Reader.ReadString('\n')` will deliver.  When
the list is exhausted the next read fails, exactly as `ReadString` fails with
an error both at end of input and on a trailing chunk with no newline (in the
latter case the partial data is discarded by the Go code, which returns the
error before using the input, so the two cases are indistinguishable here). -/

/-- Split a raw character stream into the newline-terminated lines a
`bufio.Reader` would return; an unterminated trailing chunk produces an
error on read, not a line. -/
def toLinesAux (acc : List Char) : List Char → List (List Char)
  | [] => []
  | c :: cs =>
    if c = '\n' then (acc ++ [c]) :: toLinesAux [] cs else toLinesAux (acc ++ [c]) cs

def toLines (s : List Char) : List (List Char) := toLinesAux [] s

/-- strings.TrimSpace restricted to ASCII whitespace. -/
def trimSpace (s : List Char) : List Char :=
  ((s.dropWhile isSpace).reverse.dropWhile isSpace).reverse

/-- The rating check and conversion (src/journalentry.go:113-119): the line
matches `^[1-5]$` exactly when it is one of the five single-digit strings
below, and `strconv.ParseUint(input, 10, 8)` then yields its value. -/
def parseRating : List Char → Option Nat
  | ['1'] => some 1
  | ['2'] => some 2
  | ['3'] => some 3
  | ['4'] => some 4
  | ['5'] => some 5
  | _ => none

theorem parseRating_range (t : List Char) (v : Nat) (h : parseRating t = some v) :
    1 ≤ v ∧ v ≤ 5 := by
  unfold parseRating at h
  split at h <;> first
    | · injection h with h2
        omega
    | exact absurd h (by simp)

/-- The inner `for` loop of PromptForMetadata for one field: print the
prompt, read a line, and either accept a 1-5 rating or print
"Unrecognized input" and re-prompt.  Returns the strings written to the
output in order, and on success the rating together with the unread lines;
`none` means the read failed (the error return at
src/journalentry.go:109-111). -/
def askOne (f : MoodField) : List (List Char) → List String × Option (Nat × List (List Char))
  | [] => ([promptString f], none)
  | l :: ls =>
    match parseRating (trimSpace l) with
    | some v => ([promptString f], some (v, ls))
    | none =>
      let r := askOne f ls
      (promptString f :: "Unrecognized input\n" :: r.1, r.2)

/-- Result of a prompter run: the final entry, the unread input lines, the
strings written to the output in order, and whether the run aborted with a
read error. -/
structure RunResult where
  entry : Entry
  rest : List (List Char)
  out : List String
  err : Bool
deriving DecidableEq, Repr

/-- The outer `range` loop of PromptForMetadata over the (prompt, setter)
pairs.  On a read failure the Go function returns the error immediately; the
`bufio.Reader` has by then consumed the whole underlying stream, so `rest`
is empty in that case. -/
def runPrompts : List MoodField → Entry → List (List Char) → RunResult
  | [], e, input => ⟨e, input, [], false⟩
  | f :: fs, e, input =>
    match askOne f input with
    | (outs, none) => ⟨e, [], outs, true⟩
    | (outs, some (v, rest)) =>
      let r := runPrompts fs (setField f v e) rest
      ⟨r.entry, r.rest, outs ++ r.out, r.err⟩

/-- PromptForMetadata (src/journalentry.go:103-127).  `order` is the order
in which Go's `range` happens to visit the prompt map; a run of the real
code corresponds to any `order` that is a permutation of `promptFields e`. -/
def PromptForMetadata (e : Entry) (order : List MoodField) (input : List (List Char)) :
    RunResult :=
  runPrompts order e input

theorem askOne_some_range (f : MoodField) :
    ∀ (ls : List (List Char)) (outs : List String) (v : Nat) (rest : List (List Char)),
      askOne f ls = (outs, some (v, rest)) → 1 ≤ v ∧ v ≤ 5 := by
  intro ls
  induction ls with
  | nil =>
    intro outs v rest h
    simp only [askOne] at h
    exact absurd (congrArg Prod.snd h) (by simp)
  | cons l ls ih =>
    intro outs v rest h
    simp only [askOne] at h
    rcases hp : parseRating (trimSpace l) with _ | v'
    · rw [hp] at h
      simp only at h
      have := congrArg Prod.snd h
      simp only at this
      rcases h2 : askOne f ls with ⟨outs', res'⟩
      rw [h2] at this
      exact ih outs' v rest (by rw [h2]; simp only at this ⊢; rw [this])
    · rw [hp] at h
      simp only [Prod.mk.injEq, Option.some.injEq, Prod.mk.injEq] at h
      rcases h with ⟨_, hv, _⟩
      exact hv ▸ parseRating_range _ _ hp

theorem runPrompts_getField_not_mem (f : MoodField) :
    ∀ (fs : List MoodField) (e : Entry) (ls : List (List Char)), f ∉ fs →
      getField f (runPrompts fs e ls).entry = getField f e := by
  intro fs
  induction fs with
  | nil => intro e ls _; rfl
  | cons g fs ih =>
    intro e ls hmem
    have hfg : f ≠ g := fun h => hmem (h ▸ List.mem_cons_self g fs)
    have hfs : f ∉ fs := fun h => hmem (List.mem_cons_of_mem g h)
    simp only [runPrompts]
    rcases h2 : askOne g ls with ⟨outs, _ | ⟨v, rest⟩⟩
    · rfl
    · simp only
      rw [ih (setField g v e) rest hfs, getField_setField_ne f g v e hfg]

theorem runPrompts_frame :
    ∀ (fs : List MoodField) (e : Entry) (ls : List (List Char)),
      (runPrompts fs e ls).entry.Seconds = e.Seconds ∧
        (runPrompts fs e ls).entry.Body = e.Body ∧
          (runPrompts fs e ls).entry.Path = e.Path ∧
            (runPrompts fs e ls).entry.ModTime = e.ModTime := by
  intro fs
  induction fs with
  | nil => intro e ls; exact ⟨rfl, rfl, rfl, rfl⟩
  | cons g fs ih =>
    intro e ls
    simp only [runPrompts]
    rcases h2 : askOne g ls with ⟨outs, _ | ⟨v, rest⟩⟩
    · exact ⟨rfl, rfl, rfl, rfl⟩
    · simp only
      obtain ⟨i1, i2, i3, i4⟩ := ih (setField g v e) rest
      obtain ⟨s1, s2, s3, s4⟩ := setField_frame g v e
      exact ⟨i1.trans s1, i2.trans s2, i3.trans s3, i4.trans s4⟩

theorem runPrompts_getField_or_range (f : MoodField) :
    ∀ (fs : List MoodField) (e : Entry) (ls : List (List Char)),
      getField f (runPrompts fs e ls).entry = getField f e ∨
        (1 ≤ getField f (runPrompts fs e ls).entry ∧
          getField f (runPrompts fs e ls).entry ≤ 5) := by
  intro fs
  induction fs with
  | nil => intro e ls; exact Or.inl rfl
  | cons g fs ih =>
    intro e ls
    simp only [runPrompts]
    rcases h2 : askOne g ls with ⟨outs, _ | ⟨v, rest⟩⟩
    · exact Or.inl rfl
    · simp only
      rcases ih (setField g v e) rest with h | h
      · by_cases hfg : f = g
        · subst hfg
          rw [h, getField_setField_eq]
          exact Or.inr (askOne_some_range f ls outs v rest h2)
        · rw [h, getField_setField_ne f g v e hfg]
          exact Or.inl rfl
      · exact Or.inr h

theorem runPrompts_err_rest :
    ∀ (fs : List MoodField) (e : Entry) (ls : List (List Char)),
      (runPrompts fs e ls).err = true → (runPrompts fs e ls).rest = [] := by
  intro fs
  induction fs with
  | nil => intro e ls h; exact absurd h (by simp [runPrompts])
  | cons g fs ih =>
    intro e ls
    simp only [runPrompts]
    rcases h2 : askOne g ls with ⟨outs, _ | ⟨v, rest⟩⟩
    · intro _; rfl
    · exact ih (setField g v e) rest

/-- Apply a sequence of setter calls (field, value), in order, the way the
prompter's loop issues them. -/
def applySets : List MoodField → List Nat → Entry → Entry
  | f :: fs, v :: vs, e => applySets fs vs (setField f v e)
  | _, _, e => e

theorem getField_applySets_not_mem (f : MoodField) :
    ∀ (fs : List MoodField) (vs : List Nat) (e : Entry), f ∉ fs →
      getField f (applySets fs vs e) = getField f e := by
  intro fs
  induction fs with
  | nil => intro vs e _; cases vs <;> rfl
  | cons g gs ih =>
    intro vs e hmem
    cases vs with
    | nil => rfl
    | cons v vs =>
      have hfg : f ≠ g := fun hEq => hmem (hEq ▸ List.mem_cons_self g gs)
      have hgs : f ∉ gs := fun hEq => hmem (List.mem_cons_of_mem g hEq)
      simp only [applySets]
      rw [ih vs (setField g v e) hgs, getField_setField_ne f g v e hfg]

/-- On a duplicate-free field list, every issued setter call is reflected in
the final entry: the value written to a field is retained. -/
theorem applySets_getField :
    ∀ (fs : List MoodField) (vs : List Nat) (e : Entry), fs.Nodup →
      ∀ p ∈ fs.zip vs, getField p.1 (applySets fs vs e) = p.2 := by
  intro fs
  induction fs with
  | nil => intro vs e _ p hp; simp at hp
  | cons g gs ih =>
    intro vs e hnd p hp
    cases vs with
    | nil => simp at hp
    | cons v vs =>
      obtain ⟨hg, hgs⟩ := List.nodup_cons.1 hnd
      simp only [List.zip_cons_cons, List.mem_cons] at hp
      simp only [applySets]
      rcases hp with hp | hp
      · subst hp
        rw [getField_applySets_not_mem g gs vs (setField g v e) hg]
        exact getField_setField_eq g v e
      · exact ih vs (setField g v e) hgs p hp

theorem promptFields_nodup (e : Entry) : (promptFields e).Nodup := by
  unfold promptFields
  split_ifs <;> decide

/-- A run that ends in a read error has processed some prefix of the prompt
list: the returned entry is exactly the original with the fields of that
prefix set to the accepted ratings (all in 1..5), and at least one prompt
(the one whose read failed) remains unprocessed.  Nothing is rolled back. -/
theorem runPrompts_err_progress :
    ∀ (fs : List MoodField) (e : Entry) (ls : List (List Char)),
      (runPrompts fs e ls).err = true →
      ∃ done vals remaining,
        fs = done ++ remaining ∧ remaining ≠ [] ∧ vals.length = done.length ∧
          (∀ v ∈ vals, 1 ≤ v ∧ v ≤ 5) ∧
            (runPrompts fs e ls).entry = applySets done vals e := by
  intro fs
  induction fs with
  | nil => intro e ls h; exact absurd h (by simp [runPrompts])
  | cons g gs ih =>
    intro e ls
    simp only [runPrompts]
    rcases h2 : askOne g ls with ⟨outs, _ | ⟨v, rest⟩⟩
    · intro _
      exact ⟨[], [], g :: gs, rfl, by simp, rfl, by simp, rfl⟩
    · simp only
      intro herr
      obtain ⟨done, vals, remaining, hsplit, hne, hlen, hrange, hentry⟩ :=
        ih (setField g v e) rest herr
      refine ⟨g :: done, v :: vals, remaining, by simp [hsplit], hne,
        by simp [hlen], ?_, ?_⟩
      · intro w hw
        rcases List.mem_cons.1 hw with hw | hw
        · rw [hw]
          exact askOne_some_range g ls outs v rest h2
        · exact hrange w hw
      · simpa [applySets] using hentry

/-! ## IsEntry and the recognition regex (src/journalentry.go:19-24, 129-132)

`entryRegex` is `\d{4}-\d{2}-\d{2}-Journal-Entry-for-\D{3}-\d{1,2}.md` and is
used through `regexp.MatchString`, which looks for a match anywhere in the
string: the pattern is not anchored, `\D` is "non-digit" (a negated class,
which in RE2 matches whitespace and also newline), and the `.` before `md`
is the unescaped any-character metacharacter, matching every character
except `\n` (RE2's `s` flag is off by default and `entryRegex` sets no
flags). -/

/-- The literal `-Journal-Entry-for-` shared by the regex and the layout. -/
def litJE : List Char := "-Journal-Entry-for-".toList

/-- The literal `.md` appended to the layout string. -/
def mdLit : List Char := ".md".toList

/-- Does the stream start with one arbitrary non-newline character followed
by `md`?  (The suffix `.md` of the regex: its `.` is the unescaped
any-character metacharacter, which under RE2's default flags — the `s` flag
is off — matches every character except `\n`.) -/
def mdAfter : List Char → Bool
  | x :: m :: d :: _ => x != '\n' && (m = 'm' && d = 'd')
  | _ => false

/-- `\d{1,2}.md` at the head of the stream (trailing characters allowed):
either one digit or two digits, then any non-newline character, then `md`. -/
def dayTail : List Char → Bool
  | [] => false
  | a :: rest =>
    isDigit a &&
      (mdAfter rest ||
        match rest with
        | [] => false
        | b :: rest2 => isDigit b && mdAfter rest2)

/-- A match of `entryRegex` starting at the head of the stream. -/
def matchEntryHead (s : List Char) : Bool :=
  match (((((((matchPred isDigit 4 s).bind (matchChar '-')).bind
          (matchPred isDigit 2)).bind (matchChar '-')).bind
          (matchPred isDigit 2)).bind (matchLit litJE)).bind
          (matchPred (fun c => !isDigit c) 3)).bind (matchChar '-') with
  | none => false
  | some s1 => dayTail s1

/-- A match of `entryRegex` starting anywhere in the stream
(`regexp.MatchString` semantics). -/
def entryMatch : List Char → Bool
  | [] => false
  | c :: rest => matchEntryHead (c :: rest) || entryMatch rest

/-- IsEntry (src/journalentry.go:130-132). -/
def IsEntry (path : String) : Bool := entryMatch path.toList

/-- `\d{1,2}.md` at the very end of the stream, with `.` a literal dot and
nothing after `md` — the day-and-extension part of the pattern as the spec
words it. -/
def specDayTailEnd : List Char → Bool
  | [a, '.', 'm', 'd'] => isDigit a
  | [a, b, '.', 'm', 'd'] => isDigit a && isDigit b
  | _ => false

/-- The recognition pattern as the specification words it: the whole string
is four digits, dash, two digits, dash, two digits, the literal
`-Journal-Entry-for-`, exactly three non-whitespace characters, dash, one or
two digits, and the fixed extension `.md`. -/
def specIsEntry (path : String) : Bool :=
  match (((((((matchPred isDigit 4 path.toList).bind (matchChar '-')).bind
          (matchPred isDigit 2)).bind (matchChar '-')).bind
          (matchPred isDigit 2)).bind (matchLit litJE)).bind
          (matchPred (fun c => !isSpace c) 3)).bind (matchChar '-') with
  | none => false
  | some s1 => specDayTailEnd s1

/-- What `entryRegex` actually recognises, as a declarative decomposition:
some substring of `s` consists of four digits, `-`, two digits, `-`, two
digits, the literal `-Journal-Entry-for-`, three non-digit characters, `-`,
one or two digits, an arbitrary character other than `\n` (RE2's `.` does
not match newline under the default flags), and `md`. -/
def EntryPatternProp (s : List Char) : Prop :=
  ∃ pre d4 m2 dd n3 ds x post,
    s = pre ++ d4 ++ ['-'] ++ m2 ++ ['-'] ++ dd ++ litJE ++ n3 ++ ['-'] ++ ds ++
        x :: 'm' :: 'd' :: post ∧
      d4.length = 4 ∧ d4.all isDigit = true ∧
        m2.length = 2 ∧ m2.all isDigit = true ∧
          dd.length = 2 ∧ dd.all isDigit = true ∧
            n3.length = 3 ∧ n3.all (fun c => !isDigit c) = true ∧
              (ds.length = 1 ∨ ds.length = 2) ∧ ds.all isDigit = true ∧ x ≠ '\n'

theorem mdAfter_iff {t : List Char} :
    mdAfter t = true ↔ ∃ x post, t = x :: 'm' :: 'd' :: post ∧ x ≠ '\n' := by
  constructor
  · intro h
    rcases t with _ | ⟨x, _ | ⟨m, _ | ⟨d, post⟩⟩⟩ <;> simp [mdAfter, bne_iff_ne] at h
    rcases h with ⟨hx, hm, hd⟩
    subst hm
    subst hd
    exact ⟨x, post, rfl, hx⟩
  · rintro ⟨x, post, ht, hx⟩
    subst ht
    simp [mdAfter, bne_iff_ne, hx]

theorem dayTail_iff {s : List Char} :
    dayTail s = true ↔
      ∃ ds x post, s = ds ++ x :: 'm' :: 'd' :: post ∧
        (ds.length = 1 ∨ ds.length = 2) ∧ ds.all isDigit = true ∧ x ≠ '\n' := by
  constructor
  · intro h
    rcases s with _ | ⟨a, rest⟩
    · simp [dayTail] at h
    · simp only [dayTail, Bool.and_eq_true, Bool.or_eq_true] at h
      rcases h with ⟨ha, hmd | hrest⟩
      · obtain ⟨x, post, hx, hxn⟩ := mdAfter_iff.1 hmd
        exact ⟨[a], x, post, by simp [hx], Or.inl rfl, by simp [ha], hxn⟩
      · rcases rest with _ | ⟨b, rest2⟩
        · simp at hrest
        · simp only [Bool.and_eq_true] at hrest
          obtain ⟨x, post, hx, hxn⟩ := mdAfter_iff.1 hrest.2
          exact ⟨[a, b], x, post, by simp [hx], Or.inr rfl, by simp [ha, hrest.1], hxn⟩
  · rintro ⟨ds, x, post, hs, hlen | hlen, hall, hxn⟩
    · obtain ⟨a, ha⟩ := List.length_eq_one.1 hlen
      subst ha
      subst hs
      simp only [List.all_cons, List.all_nil, Bool.and_true] at hall
      simp [dayTail, hall, mdAfter, bne_iff_ne, hxn]
    · rcases ds with _ | ⟨a, _ | ⟨b, _ | _⟩⟩ <;> simp at hlen
      subst hs
      simp only [List.all_cons, List.all_nil, Bool.and_true, Bool.and_eq_true] at hall
      simp [dayTail, hall.1, hall.2, mdAfter, bne_iff_ne, hxn]

theorem matchEntryHead_iff {s : List Char} :
    matchEntryHead s = true ↔
      ∃ d4 m2 dd n3 ds x post,
        s = d4 ++ ['-'] ++ m2 ++ ['-'] ++ dd ++ litJE ++ n3 ++ ['-'] ++ ds ++
            x :: 'm' :: 'd' :: post ∧
          d4.length = 4 ∧ d4.all isDigit = true ∧
            m2.length = 2 ∧ m2.all isDigit = true ∧
              dd.length = 2 ∧ dd.all isDigit = true ∧
                n3.length = 3 ∧ n3.all (fun c => !isDigit c) = true ∧
                  (ds.length = 1 ∨ ds.length = 2) ∧ ds.all isDigit = true ∧
                    x ≠ '\n' := by
  constructor
  · intro h
    unfold matchEntryHead at h
    rcases hbig : (((((((matchPred isDigit 4 s).bind (matchChar '-')).bind
        (matchPred isDigit 2)).bind (matchChar '-')).bind
        (matchPred isDigit 2)).bind (matchLit litJE)).bind
        (matchPred (fun c => !isDigit c) 3)).bind (matchChar '-') with _ | s9
    · rw [hbig] at h; simp at h
    · rw [hbig] at h
      simp only at h
      simp only [Option.bind_eq_some] at hbig
      obtain ⟨s8, hbig, h9⟩ := hbig
      obtain ⟨s7, hbig, h8⟩ := hbig
      obtain ⟨s6, hbig, h7⟩ := hbig
      obtain ⟨s5, hbig, h6⟩ := hbig
      obtain ⟨s4, hbig, h5⟩ := hbig
      obtain ⟨s3, hbig, h4⟩ := hbig
      obtain ⟨s2, h2, h3⟩ := hbig
      obtain ⟨d4, hs, hd4len, hd4all⟩ := matchPred_eq_some.1 h2
      rw [matchChar_eq_some] at h3
      obtain ⟨m2, hs3, hm2len, hm2all⟩ := matchPred_eq_some.1 h4
      rw [matchChar_eq_some] at h5
      obtain ⟨dd, hs5, hddlen, hddall⟩ := matchPred_eq_some.1 h6
      rw [matchLit_eq_some] at h7
      obtain ⟨n3, hs7, hn3len, hn3all⟩ := matchPred_eq_some.1 h8
      rw [matchChar_eq_some] at h9
      obtain ⟨ds, x, post, hs9, hdslen, hdsall, hxn⟩ := dayTail_iff.1 h
      refine ⟨d4, m2, dd, n3, ds, x, post, ?_, hd4len, hd4all, hm2len, hm2all,
        hddlen, hddall, hn3len, hn3all, hdslen, hdsall, hxn⟩
      subst hs hs3 hs5 hs7 hs9 h3 h5 h7 h9
      simp [List.append_assoc]
  · rintro ⟨d4, m2, dd, n3, ds, x, post, hs, hd4len, hd4all, hm2len, hm2all,
      hddlen, hddall, hn3len, hn3all, hdslen, hdsall, hxn⟩
    unfold matchEntryHead
    have e2 : matchPred isDigit 4 s =
        some (['-'] ++ m2 ++ ['-'] ++ dd ++ litJE ++ n3 ++ ['-'] ++ ds ++
          x :: 'm' :: 'd' :: post) :=
      matchPred_eq_some.2 ⟨d4, by simp [hs, List.append_assoc], hd4len, hd4all⟩
    rw [e2]
    simp only [Option.some_bind]
    rw [show matchChar '-' (['-'] ++ m2 ++ ['-'] ++ dd ++ litJE ++ n3 ++ ['-'] ++ ds ++
        x :: 'm' :: 'd' :: post) =
      some (m2 ++ ['-'] ++ dd ++ litJE ++ n3 ++ ['-'] ++ ds ++ x :: 'm' :: 'd' :: post) from
      matchChar_eq_some.2 (by simp [List.append_assoc])]
    simp only [Option.some_bind]
    rw [show matchPred isDigit 2 (m2 ++ ['-'] ++ dd ++ litJE ++ n3 ++ ['-'] ++ ds ++
        x :: 'm' :: 'd' :: post) =
      some (['-'] ++ dd ++ litJE ++ n3 ++ ['-'] ++ ds ++ x :: 'm' :: 'd' :: post) from
      matchPred_eq_some.2 ⟨m2, by simp [List.append_assoc], hm2len, hm2all⟩]
    simp only [Option.some_bind]
    rw [show matchChar '-' (['-'] ++ dd ++ litJE ++ n3 ++ ['-'] ++ ds ++
        x :: 'm' :: 'd' :: post) =
      some (dd ++ litJE ++ n3 ++ ['-'] ++ ds ++ x :: 'm' :: 'd' :: post) from
      matchChar_eq_some.2 (by simp [List.append_assoc])]
    simp only [Option.some_bind]
    rw [show matchPred isDigit 2 (dd ++ litJE ++ n3 ++ ['-'] ++ ds ++
        x :: 'm' :: 'd' :: post) =
      some (litJE ++ n3 ++ ['-'] ++ ds ++ x :: 'm' :: 'd' :: post) from
      matchPred_eq_some.2 ⟨dd, by simp [List.append_assoc], hddlen, hddall⟩]
    simp only [Option.some_bind]
    rw [show matchLit litJE (litJE ++ n3 ++ ['-'] ++ ds ++ x :: 'm' :: 'd' :: post) =
      some (n3 ++ ['-'] ++ ds ++ x :: 'm' :: 'd' :: post) from
      matchLit_eq_some.2 (by simp [List.append_assoc])]
    simp only [Option.some_bind]
    rw [show matchPred (fun c => !isDigit c) 3 (n3 ++ ['-'] ++ ds ++
        x :: 'm' :: 'd' :: post) =
      some (['-'] ++ ds ++ x :: 'm' :: 'd' :: post) from
      matchPred_eq_some.2 ⟨n3, by simp [List.append_assoc], hn3len, hn3all⟩]
    simp only [Option.some_bind]
    rw [show matchChar '-' (['-'] ++ ds ++ x :: 'm' :: 'd' :: post) =
      some (ds ++ x :: 'm' :: 'd' :: post) from matchChar_eq_some.2 (by simp)]
    simp only
    exact dayTail_iff.2 ⟨ds, x, post, rfl, hdslen, hdsall, hxn⟩

theorem entryMatch_iff : ∀ {s : List Char},
    entryMatch s = true ↔ ∃ pre t, s = pre ++ t ∧ matchEntryHead t = true := by
  intro s
  induction s with
  | nil =>
    simp only [entryMatch]
    constructor
    · intro h; exact absurd h (by simp)
    · rintro ⟨pre, t, hs, ht⟩
      have h0 : pre ++ t = [] := hs.symm
      rw [List.append_eq_nil] at h0
      rw [h0.2] at ht
      exact absurd ht (by decide)
  | cons c rest ih =>
    simp only [entryMatch, Bool.or_eq_true]
    constructor
    · rintro (h | h)
      · exact ⟨[], c :: rest, rfl, h⟩
      · obtain ⟨pre, t, hs, ht⟩ := ih.1 h
        exact ⟨c :: pre, t, by simp [hs], ht⟩
    · rintro ⟨pre, t, hs, ht⟩
      rcases pre with _ | ⟨p, pre⟩
      · simp only [List.nil_append] at hs
        exact Or.inl (hs ▸ ht)
      · simp only [List.cons_append, List.cons.injEq] at hs
        exact Or.inr (ih.2 ⟨pre, t, hs.2, ht⟩)

/-- `IsEntry` recognises exactly the strings containing a substring matching
the decomposition `EntryPatternProp`. -/
theorem IsEntry_iff_pattern (path : String) :
    IsEntry path = true ↔ EntryPatternProp path.toList := by
  unfold IsEntry EntryPatternProp
  rw [entryMatch_iff]
  constructor
  · rintro ⟨pre, t, hs, ht⟩
    obtain ⟨d4, m2, dd, n3, ds, x, post, hteq, rest⟩ := matchEntryHead_iff.1 ht
    exact ⟨pre, d4, m2, dd, n3, ds, x, post,
      by subst hteq; simpa [List.append_assoc, String.toList] using hs, rest⟩
  · rintro ⟨pre, d4, m2, dd, n3, ds, x, post, hs, rest⟩
    refine ⟨pre, d4 ++ ['-'] ++ m2 ++ ['-'] ++ dd ++ litJE ++ n3 ++ ['-'] ++ ds ++
      x :: 'm' :: 'd' :: post, by simpa [List.append_assoc, String.toList] using hs, ?_⟩
    exact matchEntryHead_iff.2 ⟨d4, m2, dd, n3, ds, x, post, rfl, rest⟩

/-! ## The entry filename layout and Date (src/journalentry.go:19-24, 93-95)

`entryFormat` is the Go time layout `2006-01-02-Journal-Entry-for-Jan-2.md`.
`time.Time.Format` renders it as four-digit year, two-digit month, two-digit
day, the literal, the three-letter month abbreviation and the unpadded day;
`time.Parse` consumes the same elements in layout order (a later element
overwrites an earlier one, so the final month comes from the abbreviation
and the final day from the unpadded number), requires the input to be fully
consumed, and finally checks the day against the month's length.
(`time.Parse` also accepts case-insensitive month names and representable
out-of-layout years; neither is reachable from strings the layout itself
produced, which is all the round-trip claim quantifies over.) -/

/-- Month abbreviations used by the `Jan` layout element. -/
def monAbbrev : Nat → List Char
  | 1 => ['J', 'a', 'n']
  | 2 => ['F', 'e', 'b']
  | 3 => ['M', 'a', 'r']
  | 4 => ['A', 'p', 'r']
  | 5 => ['M', 'a', 'y']
  | 6 => ['J', 'u', 'n']
  | 7 => ['J', 'u', 'l']
  | 8 => ['A', 'u', 'g']
  | 9 => ['S', 'e', 'p']
  | 10 => ['O', 'c', 't']
  | 11 => ['N', 'o', 'v']
  | 12 => ['D', 'e', 'c']
  | _ => []

/-- Reverse lookup of a three-letter month abbreviation. -/
def monLookup : List Char → Option Nat
  | ['J', 'a', 'n'] => some 1
  | ['F', 'e', 'b'] => some 2
  | ['M', 'a', 'r'] => some 3
  | ['A', 'p', 'r'] => some 4
  | ['M', 'a', 'y'] => some 5
  | ['J', 'u', 'n'] => some 6
  | ['J', 'u', 'l'] => some 7
  | ['A', 'u', 'g'] => some 8
  | ['S', 'e', 'p'] => some 9
  | ['O', 'c', 't'] => some 10
  | ['N', 'o', 'v'] => some 11
  | ['D', 'e', 'c'] => some 12
  | _ => none

/-- Parse a three-letter month abbreviation from the stream. -/
def parseMon : List Char → Option (Nat × List Char)
  | a :: b :: c :: r => (monLookup [a, b, c]).map (fun k => (k, r))
  | _ => none

theorem parseMon_abbrev (m : Nat) (h1 : 1 ≤ m) (h2 : m ≤ 12) :
    ∀ r, parseMon (monAbbrev m ++ r) = some (m, r) := by
  intro r
  interval_cases m <;> rfl

/-- Gregorian leap year, as `time.Date` computes it. -/
def isLeap (y : Nat) : Bool := (y % 4 = 0 && y % 100 != 0) || y % 400 = 0

/-- Days in a month, as Go's `daysIn`. -/
def daysIn (m y : Nat) : Nat :=
  if m = 2 then (if isLeap y then 29 else 28)
  else if m = 4 || m = 6 || m = 9 || m = 11 then 30
  else 31

theorem daysIn_le_31 (m y : Nat) : daysIn m y ≤ 31 := by
  unfold daysIn
  split
  · split <;> omega
  · split <;> omega

/-- `time.Time.Format` applied to the `entryFormat` layout, for a date with
year `y`, month `m`, day `d`. -/
def formatEntry (y m d : Nat) : List Char :=
  pad4 y ++ ['-'] ++ pad2 m ++ ['-'] ++ pad2 d ++ litJE ++ monAbbrev m ++ ['-'] ++
    natChars d ++ mdLit

/-- The formatted filename as a `String` (the value of
`time.Now().Format(entryFormat)` used at src/journalentry.go:47). -/
def entryFormatName (y m d : Nat) : String := ⟨formatEntry y m d⟩

/-- `time.Parse(entryFormat, ·)`: consume each layout element in order,
require the input to be exhausted, and validate the day range.  Returns
(year, month, day); the month parsed from `01` and the day parsed from `02`
are overwritten by the `Jan` and `2` elements, as in Go. -/
def parseEntry (s : List Char) : Option (Nat × Nat × Nat) :=
  (parse4 s).bind fun ys =>
  (matchChar '-' ys.2).bind fun s1 =>
  (parse2 s1).bind fun m1 =>
  (matchChar '-' m1.2).bind fun s2 =>
  (parse2 s2).bind fun d1 =>
  (matchLit litJE d1.2).bind fun s3 =>
  (parseMon s3).bind fun ms =>
  (matchChar '-' ms.2).bind fun s4 =>
  (parseDay2 s4).bind fun ds =>
  (matchLit mdLit ds.2).bind fun s5 =>
  if s5 = [] ∧ 1 ≤ ds.1 ∧ ds.1 ≤ daysIn ms.1 ys.1 then some (ys.1, ms.1, ds.1) else none

/-- `filepath.Base` for the paths the package builds (no trailing
separator): everything after the last `/`. -/
def basename (s : List Char) : List Char :=
  ((s.reverse.takeWhile (fun c => c != '/')).reverse)

/-- Date (src/journalentry.go:93-95): parse the filename component of
`p.Path` back through the shared layout. -/
def Date (e : Entry) : Option (Nat × Nat × Nat) := parseEntry (basename e.Path.toList)

theorem basename_append (pre l : List Char) (h : '/' ∉ l) :
    basename (pre ++ '/' :: l) = l := by
  unfold basename
  have hrev : (pre ++ '/' :: l).reverse = l.reverse ++ '/' :: pre.reverse := by
    simp [List.reverse_append]
  rw [hrev]
  rw [takeWhile_append_stop _ _ _ _ (fun a ha => ?_) (by simp)]
  · simp
  · have : a ∈ l := List.mem_reverse.1 ha
    simp only [bne_iff_ne, ne_eq]
    intro hEq
    exact h (hEq ▸ this)

theorem pad2_ne_slash (n : Nat) : ∀ c ∈ pad2 n, c ≠ '/' := by
  intro c hc he
  subst he
  simp only [pad2, List.mem_cons, List.not_mem_nil, or_false] at hc
  rcases hc with h | h <;> exact digitChar_ne_slash _ h.symm

theorem pad4_ne_slash (n : Nat) : ∀ c ∈ pad4 n, c ≠ '/' := by
  intro c hc he
  subst he
  simp only [pad4, List.mem_cons, List.not_mem_nil, or_false] at hc
  rcases hc with h | h | h | h <;> exact digitChar_ne_slash _ h.symm

theorem monAbbrev_ne_slash (m : Nat) : ∀ c ∈ monAbbrev m, c ≠ '/' := by
  intro c hc he
  subst he
  revert hc
  unfold monAbbrev
  split <;> decide

theorem natChars_ne_slash (n : Nat) : ∀ c ∈ natChars n, c ≠ '/' := by
  intro c hc he
  subst he
  exact absurd (natChars_all_digit n '/' hc) (by decide)

theorem formatEntry_no_slash (y m d : Nat) : '/' ∉ formatEntry y m d := by
  intro hmem
  simp only [formatEntry, List.mem_append] at hmem
  rcases hmem with (((((((((h | h) | h) | h) | h) | h) | h) | h) | h) | h)
  · exact pad4_ne_slash y '/' h rfl
  · exact absurd h (by decide)
  · exact pad2_ne_slash m '/' h rfl
  · exact absurd h (by decide)
  · exact pad2_ne_slash d '/' h rfl
  · exact absurd h (by decide)
  · exact monAbbrev_ne_slash m '/' h rfl
  · exact absurd h (by decide)
  · exact natChars_ne_slash d '/' h rfl
  · exact absurd h (by decide)

/-- The padded and unpadded fields agree with the date, so parsing retraces
formatting exactly. -/
theorem parseEntry_formatEntry (y m d : Nat) (hy2 : y ≤ 9999) (hm1 : 1 ≤ m)
    (hm2 : m ≤ 12) (hd1 : 1 ≤ d) (hd2 : d ≤ daysIn m y) :
    parseEntry (formatEntry y m d) = some (y, m, d) := by
  have hd31 : d ≤ 31 := hd2.trans (daysIn_le_31 m y)
  have hdotmd : mdLit = '.' :: ['m', 'd'] := rfl
  unfold parseEntry formatEntry
  rw [List.append_assoc, List.append_assoc, List.append_assoc, List.append_assoc,
    List.append_assoc, List.append_assoc, List.append_assoc, List.append_assoc]
  rw [parse4_pad4 y (by omega)]
  simp only [Option.some_bind, List.singleton_append]
  rw [matchChar_cons]
  simp only [Option.some_bind]
  rw [parse2_pad2 m (by omega)]
  simp only [Option.some_bind, List.singleton_append]
  rw [matchChar_cons]
  simp only [Option.some_bind]
  rw [parse2_pad2 d (by omega)]
  simp only [Option.some_bind]
  rw [matchLit_self litJE]
  simp only [Option.some_bind]
  rw [parseMon_abbrev m hm1 hm2]
  simp only [Option.some_bind, List.singleton_append]
  rw [matchChar_cons]
  simp only [Option.some_bind]
  rw [show (mdLit : List Char) = '.' :: ['m', 'd'] from rfl]
  rw [parseDay2_natChars d (by omega) '.' (by decide)]
  simp only [Option.some_bind]
  rw [show matchLit ('.' :: ['m', 'd']) ('.' :: ['m', 'd']) = some [] from rfl]
  simp only [Option.some_bind]
  rw [if_pos ⟨trivial, hd1, hd2⟩]

/-! ## Save / Load and the metadata block (src/journalentry.go:58-91)

Save and Load delegate the metadata block to `frontmatter.Marshal` /
`frontmatter.Unmarshal` from github.com/mikeraimondi/frontmatter, whose
source is not under src/. -/

/-- The delimiter line closing the metadata block. -/
def fmDelim : List Char := "---\n".toList

/-- One `key: value` line of the metadata block. -/
def kvLine (key : List Char) (v : Nat) : List Char :=
  key ++ [':', ' '] ++ natChars v ++ ['\n']

/-- Modelled from the spec: `frontmatter.Marshal` (the
github.com/mikeraimondi/frontmatter library, not under src/) serializes the
four exported metadata fields — `Body`, `Path` and `ModTime` are excluded —
as a line-oriented key/value header followed by a delimiter line; the body
is not part of the block. -/
def fmMarshal (e : Entry) : List Char :=
  kvLine "Seconds".toList e.Seconds ++ kvLine "LowMood".toList e.LowMood ++
    kvLine "HighMood".toList e.HighMood ++ kvLine "AverageMood".toList e.AverageMood ++
      fmDelim

/-- The metadata fields and body recovered from a file's bytes. -/
structure FMData where
  seconds : Nat
  lowMood : Nat
  highMood : Nat
  averageMood : Nat
  body : List Char
deriving DecidableEq, Repr

/-- Parse one `key: value` line back from the stream. -/
def parseKV (key : List Char) (s : List Char) : Option (Nat × List Char) :=
  (matchLit (key ++ [':', ' ']) s).bind fun s1 =>
  (parseNat s1).bind fun vs =>
  (matchChar '\n' vs.2).map fun r => (vs.1, r)

/-- Modelled from the spec: `frontmatter.Unmarshal` (same missing library)
parses the key/value header back from the leading portion of the content and
returns the remainder after the delimiter verbatim as the body. -/
def fmUnmarshal (s : List Char) : Option FMData :=
  (parseKV "Seconds".toList s).bind fun a =>
  (parseKV "LowMood".toList a.2).bind fun b =>
  (parseKV "HighMood".toList b.2).bind fun c =>
  (parseKV "AverageMood".toList c.2).bind fun d =>
  (matchLit fmDelim d.2).map fun body => ⟨a.1, b.1, c.1, d.1, body⟩

/-- Save (src/journalentry.go:79-91): the bytes written to `p.Path`, namely
the marshalled metadata block followed by the body unchanged.  (On a write
failure the Go function prints the attempted content and still returns the
error; the filesystem itself is outside this model.) -/
def Save (e : Entry) : List Char := fmMarshal e ++ e.Body

/-- Load (src/journalentry.go:58-76) applied to the bytes `data` read from
`p.Path` and the observed modification time: populates the entry from the
metadata block, takes the remainder as the body, reports whether the
observed modification time differs from the stored one, and stores the
observed time.  `none` models the unmarshal error return (the I/O errors of
the open/read/stat calls are outside this model). -/
def Load (e : Entry) (data : List Char) (obsModTime : Nat) : Option (Bool × Entry) :=
  match fmUnmarshal data with
  | none => none
  | some fm =>
    some (obsModTime != e.ModTime,
      { e with Seconds := fm.seconds, LowMood := fm.lowMood, HighMood := fm.highMood,
               AverageMood := fm.averageMood, Body := fm.body, ModTime := obsModTime })

theorem parseKV_kvLine (key : List Char) (v : Nat) :
    ∀ r, parseKV key (kvLine key v ++ r) = some (v, r) := by
  intro r
  unfold parseKV kvLine
  simp only [List.append_assoc]
  rw [← List.append_assoc key]
  rw [matchLit_self (key ++ [':', ' '])]
  simp only [Option.some_bind, List.singleton_append]
  rw [parseNat_natChars v '\n' (by decide)]
  simp only [Option.some_bind]
  rw [matchChar_cons]
  rfl

/-! ## New (src/journalentry.go:39-55) -/

/-- Outcome of an `os.Stat` call. -/
inductive StatResult where
  | ok (isDir : Bool)
  | notExist
  | otherErr (msg : String)
deriving DecidableEq, Repr

/-- The outcomes of the I/O operations `New` performs, in the order it
performs them: `os.Stat(dir)`, `time.Now().Format(entryFormat)`,
`os.Stat(p.Path)`, and then either `p.Save()` (whose result is an optional
error) or `p.Load()` (whose error component is likewise optional; its
mutation of `p` on success is irrelevant to the error-propagation claim and
is represented by the populated entry `loaded`). -/
structure NewEnv where
  statDir : StatResult
  nowFormatted : String
  nowTime : Nat
  statFile : StatResult
  saveErr : Option String
  loadErr : Option String
  loaded : Entry
deriving Repr

/-- New (src/journalentry.go:39-55).  Returns the entry and the error the Go
function returns.  Note the control flow at line 48: `if _, err :=
os.Stat(p.Path); os.IsNotExist(err) { ... err = p.Save() } else if err ==
nil { _, err = p.Load() }` declares a fresh `err` scoped to the
if-statement, so both inner assignments write to that shadowed variable;
the `return p, err` at line 54 reads the enclosing function's `err`, which
is nil on every path that reaches the if-statement.  The embedding keeps
the shadowed value in `_shadowErr` to mirror the source and returns the
outer one. -/
def New (dir : String) (env : NewEnv) : Option Entry × Option String :=
  match env.statDir with
  | .notExist => (none, some "no such file or directory")
  | .otherErr msg => (none, some msg)
  | .ok isDir =>
    if !isDir then (none, some "must be a directory")
    else
      let p : Entry := { Seconds := 0, LowMood := 0, HighMood := 0, AverageMood := 0,
                         Body := [], Path := dir ++ "/" ++ env.nowFormatted, ModTime := 0 }
      match env.statFile with
      | .notExist =>
        let p := { p with ModTime := env.nowTime }
        let _shadowErr := env.saveErr
        (some p, none)
      | .ok _ =>
        let _shadowErr := env.loadErr
        (some (if env.loadErr = none then env.loaded else p), none)
      | .otherErr _ => (some p, none)

/-! ## Claim C1 -/

/-- C1: the claim fails on the code.  With an existing directory, a missing
entry file and a failing Save, `New` returns a nil error: the Save error is
assigned to the `err` variable freshly declared by the if-statement at
src/journalentry.go:48, which shadows the function's named return value, so
the `return p, err` at line 54 reads nil.  The same shadowing swallows a
failing Load when the file exists.  This theorem evaluates the embedding of
`New` at both failing environments and shows the returned error is `none`
despite the nonempty Save/Load errors. -/
theorem new_swallows_errors :
    (New "journal"
        ⟨.ok true, "2023-07-04-Journal-Entry-for-Jul-4.md", 5, .notExist,
          some "disk full", none, ⟨0, 0, 0, 0, [], "", 0⟩⟩).2 = none ∧
      (New "journal"
          ⟨.ok true, "2023-07-04-Journal-Entry-for-Jul-4.md", 5, .ok false, none,
            some "invalid frontmatter", ⟨0, 0, 0, 0, [], "", 0⟩⟩).2 = none :=
  ⟨rfl, rfl⟩

/-! ## Claim C2 -/

/-- An entry with all mood fields unset, as in the fill-in property. -/
def zeroMoodEntry : Entry := ⟨0, 0, 0, 0, [], "journal/e.md", 0⟩

/-- C2 counterexample: the prompts live in a Go map and `range` may visit
them in any order; the order (LowMood, HighMood, AverageMood) is an
admissible iteration order for the all-unset entry, and under it the input
`3\n4\n2\n` leaves HighMood = 4, not 3, so the claimed fixed outcome
HighMood=3, LowMood=4, AverageMood=2 is false for this run of the code. -/
theorem promptForMetadata_fixed_order_cex :
    List.Perm [MoodField.low, MoodField.high, MoodField.avg] (promptFields zeroMoodEntry) ∧
      ¬((PromptForMetadata zeroMoodEntry [MoodField.low, MoodField.high, MoodField.avg]
            (toLines "3\n4\n2\n".toList)).entry.HighMood = 3 ∧
          (PromptForMetadata zeroMoodEntry [MoodField.low, MoodField.high, MoodField.avg]
              (toLines "3\n4\n2\n".toList)).entry.LowMood = 4 ∧
            (PromptForMetadata zeroMoodEntry [MoodField.low, MoodField.high, MoodField.avg]
                (toLines "3\n4\n2\n".toList)).entry.AverageMood = 2) := by
  decide

/-- C2 amended: on an all-zero entry with input stream `3\n4\n2\n` the
prompter terminates without error, writes exactly the three prompt strings
(one per mood field, in the map iteration order of the run), and assigns
3, 4, 2 to the three mood fields in that same order — so the fields end up
holding 3, 4 and 2 in some arrangement; when the iteration order happens to
be (HighMood, LowMood, AverageMood) the result is HighMood=3, LowMood=4,
AverageMood=2. -/
theorem promptForMetadata_fill_in (order : List MoodField)
    (h : List.Perm order (promptFields zeroMoodEntry)) :
    (PromptForMetadata zeroMoodEntry order (toLines "3\n4\n2\n".toList)).err = false ∧
      (PromptForMetadata zeroMoodEntry order (toLines "3\n4\n2\n".toList)).out =
        order.map promptString ∧
        Multiset.ofList
            [(PromptForMetadata zeroMoodEntry order (toLines "3\n4\n2\n".toList)).entry.HighMood,
              (PromptForMetadata zeroMoodEntry order (toLines "3\n4\n2\n".toList)).entry.LowMood,
              (PromptForMetadata zeroMoodEntry order
                  (toLines "3\n4\n2\n".toList)).entry.AverageMood] =
          Multiset.ofList [3, 4, 2] ∧
          (order = [MoodField.high, MoodField.low, MoodField.avg] →
            (PromptForMetadata zeroMoodEntry order
                  (toLines "3\n4\n2\n".toList)).entry.HighMood = 3 ∧
              (PromptForMetadata zeroMoodEntry order
                    (toLines "3\n4\n2\n".toList)).entry.LowMood = 4 ∧
                (PromptForMetadata zeroMoodEntry order
                      (toLines "3\n4\n2\n".toList)).entry.AverageMood = 2) := by
  have hl : order.length = 3 := by simpa using h.length_eq
  rcases order with _ | ⟨a, _ | ⟨b, _ | ⟨c, _ | ⟨d, t⟩⟩⟩⟩ <;> simp at hl
  cases a <;> cases b <;> cases c <;> revert h <;> decide

/-- Witness for C2's amended theorem at the source-order permutation. -/
theorem promptForMetadata_fill_in_witness :
    (PromptForMetadata zeroMoodEntry [MoodField.high, MoodField.low, MoodField.avg]
          (toLines "3\n4\n2\n".toList)).entry.HighMood = 3 ∧
      (PromptForMetadata zeroMoodEntry [MoodField.high, MoodField.low, MoodField.avg]
            (toLines "3\n4\n2\n".toList)).entry.LowMood = 4 ∧
        (PromptForMetadata zeroMoodEntry [MoodField.high, MoodField.low, MoodField.avg]
              (toLines "3\n4\n2\n".toList)).entry.AverageMood = 2 :=
  (promptForMetadata_fill_in [MoodField.high, MoodField.low, MoodField.avg]
      (by decide)).2.2.2 rfl

/-! ## Claim C3 -/

/-- C3 counterexample: `IsEntry` does not coincide with the spec's pattern
(four digits, dash, two digits, dash, two digits, the literal, exactly three
NON-WHITESPACE characters, dash, one-or-two digits, the fixed extension,
as a match of the whole filename).  The regex actually uses `\D{3}`
(non-digit, so three spaces qualify), is unanchored, and leaves the dot of
`.md` an unescaped any-character, so these three strings are accepted by
`IsEntry` while the spec's pattern rejects them. -/
theorem isEntry_spec_pattern_cex :
    IsEntry "2023-07-04-Journal-Entry-for-   -4.md" = true ∧
      specIsEntry "2023-07-04-Journal-Entry-for-   -4.md" = false ∧
        IsEntry "x2023-07-04-Journal-Entry-for-Jul-4.mdYZ" = true ∧
          specIsEntry "x2023-07-04-Journal-Entry-for-Jul-4.mdYZ" = false ∧
            IsEntry "2023-07-04-Journal-Entry-for-Jul-4Xmd" = true ∧
              specIsEntry "2023-07-04-Journal-Entry-for-Jul-4Xmd" = false := by
  decide

/-- C3 amended: `IsEntry s` returns true exactly when `s` CONTAINS a
substring consisting of four digits, dash, two digits, dash, two digits,
the literal `-Journal-Entry-for-`, exactly three NON-DIGIT characters,
dash, one or two digits, one arbitrary character other than newline (the
match need not span the whole string, and the extension's dot is the
unescaped `.` metacharacter, which does not match `\n` under RE2's default
flags); it still returns false for a filename missing a component, using a
wrong separator, or using a 4-letter month abbreviation, and for a newline
standing where the dot should be. -/
theorem isEntry_characterization :
    (∀ s : String, IsEntry s = true ↔ EntryPatternProp s.toList) ∧
      IsEntry "2023-07-Journal-Entry-for-Jul-4.md" = false ∧
        IsEntry "2023_07_04-Journal-Entry-for-Jul-4.md" = false ∧
          IsEntry "2023-07-04-Journal-Entry-for-July-4.md" = false ∧
            IsEntry "2023-07-04-Journal-Entry-for-Jul-4\nmd" = false :=
  ⟨IsEntry_iff_pattern, by decide, by decide, by decide, by decide⟩

/-! ## Claim C4 -/

/-- C4: filename round-trip.  For any date in the supported range (year at
most 9999, valid month, day within the month), building the entry path from
the date with the shared layout and parsing it back through `Date` yields
the original year, month and day. -/
theorem date_format_roundtrip (dir : String) (y m d : Nat) (hy1 : 1 ≤ y)
    (hy2 : y ≤ 9999) (hm1 : 1 ≤ m) (hm2 : m ≤ 12) (hd1 : 1 ≤ d)
    (hd2 : d ≤ daysIn m y) :
    Date { Seconds := 0, LowMood := 0, HighMood := 0, AverageMood := 0, Body := [],
           Path := dir ++ "/" ++ entryFormatName y m d, ModTime := 0 } =
      some (y, m, d) := by
  unfold Date
  have h1 : (dir ++ "/" ++ entryFormatName y m d).toList =
      dir.toList ++ '/' :: formatEntry y m d := by
    simp only [String.toList, String.data_append, List.append_assoc,
      List.singleton_append]
    rfl
  simp only [h1]
  rw [basename_append _ _ (formatEntry_no_slash y m d)]
  exact parseEntry_formatEntry y m d hy2 hm1 hm2 hd1 hd2

/-- Witness for C4 at July 4, 2023. -/
theorem date_format_roundtrip_witness :
    Date { Seconds := 0, LowMood := 0, HighMood := 0, AverageMood := 0, Body := [],
           Path := "journal" ++ "/" ++ entryFormatName 2023 7 4, ModTime := 0 } =
      some (2023, 7, 4) :=
  date_format_roundtrip "journal" 2023 7 4 (by decide) (by decide) (by decide)
    (by decide) (by decide) (by decide)

/-! ## Claim C5 -/

/-- C5: save/load round-trip.  For any entry (arbitrary metadata values and
arbitrary body bytes), loading the bytes written by Save yields an entry
whose body is byte-for-byte identical to the original and whose four
metadata fields equal the originals. -/
theorem save_load_roundtrip (e : Entry) (t : Nat) :
    ∃ modified loaded, Load e (Save e) t = some (modified, loaded) ∧
      loaded.Seconds = e.Seconds ∧ loaded.LowMood = e.LowMood ∧
        loaded.HighMood = e.HighMood ∧ loaded.AverageMood = e.AverageMood ∧
          loaded.Body = e.Body := by
  unfold Load Save fmMarshal fmUnmarshal
  rw [List.append_assoc, List.append_assoc, List.append_assoc, List.append_assoc]
  rw [parseKV_kvLine "Seconds".toList e.Seconds]
  simp only [Option.some_bind]
  rw [parseKV_kvLine "LowMood".toList e.LowMood]
  simp only [Option.some_bind]
  rw [parseKV_kvLine "HighMood".toList e.HighMood]
  simp only [Option.some_bind]
  rw [parseKV_kvLine "AverageMood".toList e.AverageMood]
  simp only [Option.some_bind]
  rw [matchLit_self fmDelim]
  exact ⟨_, _, rfl, rfl, rfl, rfl, rfl, rfl⟩

/-! ## Claim C6 -/

/-- C6: prompter idempotence.  If all three mood fields are nonzero the
prompter reads nothing (the unread input is the whole input), writes
nothing, reports no error and leaves the entry untouched; and in general a
mood field holding a nonzero value is never overwritten by a run of the
prompter. -/
theorem prompter_skips_set_fields (e : Entry) (order : List MoodField)
    (input : List (List Char)) (h : List.Perm order (promptFields e)) :
    (e.HighMood ≠ 0 ∧ e.LowMood ≠ 0 ∧ e.AverageMood ≠ 0 →
        PromptForMetadata e order input = ⟨e, input, [], false⟩) ∧
      (e.HighMood ≠ 0 → (PromptForMetadata e order input).entry.HighMood = e.HighMood) ∧
        (e.LowMood ≠ 0 → (PromptForMetadata e order input).entry.LowMood = e.LowMood) ∧
          (e.AverageMood ≠ 0 →
            (PromptForMetadata e order input).entry.AverageMood = e.AverageMood) := by
  refine ⟨?_, ?_, ?_, ?_⟩
  · rintro ⟨h1, h2, h3⟩
    have hpf : promptFields e = [] := by simp [promptFields, h1, h2, h3]
    rw [hpf] at h
    have := List.Perm.eq_nil h
    subst this
    rfl
  · intro h1
    have hmem : MoodField.high ∉ order := fun hm =>
      h1 ((mem_promptFields MoodField.high e).1 (h.subset hm))
    exact runPrompts_getField_not_mem MoodField.high order e input hmem
  · intro h1
    have hmem : MoodField.low ∉ order := fun hm =>
      h1 ((mem_promptFields MoodField.low e).1 (h.subset hm))
    exact runPrompts_getField_not_mem MoodField.low order e input hmem
  · intro h1
    have hmem : MoodField.avg ∉ order := fun hm =>
      h1 ((mem_promptFields MoodField.avg e).1 (h.subset hm))
    exact runPrompts_getField_not_mem MoodField.avg order e input hmem

/-- Witness for C6 on a fully-set entry: the run is a complete no-op. -/
theorem prompter_skips_set_fields_witness :
    PromptForMetadata ⟨7, 2, 3, 4, [], "journal/e.md", 0⟩ [] [['x', '\n']] =
      ⟨⟨7, 2, 3, 4, [], "journal/e.md", 0⟩, [['x', '\n']], [], false⟩ :=
  (prompter_skips_set_fields ⟨7, 2, 3, 4, [], "journal/e.md", 0⟩ [] [['x', '\n']]
      (by decide)).1 (by decide)

/-! ## Claim C7 -/

/-- C7: input correction.  On an entry with exactly one unset mood field and
input stream `x\n5\n`, the prompter writes "Unrecognized input" exactly
once, then accepts 5, sets that field to 5 and finishes without error. -/
theorem prompter_retry_once (e : Entry) (order : List MoodField)
    (h : List.Perm order (promptFields e)) :
    (e.HighMood = 0 ∧ e.LowMood ≠ 0 ∧ e.AverageMood ≠ 0 →
        (PromptForMetadata e order (toLines "x\n5\n".toList)).out.count
            "Unrecognized input\n" = 1 ∧
          (PromptForMetadata e order (toLines "x\n5\n".toList)).entry.HighMood = 5 ∧
            (PromptForMetadata e order (toLines "x\n5\n".toList)).err = false) ∧
      (e.HighMood ≠ 0 ∧ e.LowMood = 0 ∧ e.AverageMood ≠ 0 →
          (PromptForMetadata e order (toLines "x\n5\n".toList)).out.count
              "Unrecognized input\n" = 1 ∧
            (PromptForMetadata e order (toLines "x\n5\n".toList)).entry.LowMood = 5 ∧
              (PromptForMetadata e order (toLines "x\n5\n".toList)).err = false) ∧
        (e.HighMood ≠ 0 ∧ e.LowMood ≠ 0 ∧ e.AverageMood = 0 →
            (PromptForMetadata e order (toLines "x\n5\n".toList)).out.count
                "Unrecognized input\n" = 1 ∧
              (PromptForMetadata e order (toLines "x\n5\n".toList)).entry.AverageMood = 5 ∧
                (PromptForMetadata e order (toLines "x\n5\n".toList)).err = false) := by
  refine ⟨?_, ?_, ?_⟩
  · rintro ⟨h1, h2, h3⟩
    have hpf : promptFields e = [MoodField.high] := by simp [promptFields, h1, h2, h3]
    rw [hpf] at h
    have := List.perm_singleton.1 h
    subst this
    simp only [PromptForMetadata, runPrompts,
      show askOne MoodField.high (toLines "x\n5\n".toList) =
        ([promptString MoodField.high, "Unrecognized input\n", promptString MoodField.high],
          some (5, [])) from rfl]
    exact ⟨by decide, by trivial, by trivial⟩
  · rintro ⟨h1, h2, h3⟩
    have hpf : promptFields e = [MoodField.low] := by simp [promptFields, h1, h2, h3]
    rw [hpf] at h
    have := List.perm_singleton.1 h
    subst this
    simp only [PromptForMetadata, runPrompts,
      show askOne MoodField.low (toLines "x\n5\n".toList) =
        ([promptString MoodField.low, "Unrecognized input\n", promptString MoodField.low],
          some (5, [])) from rfl]
    exact ⟨by decide, by trivial, by trivial⟩
  · rintro ⟨h1, h2, h3⟩
    have hpf : promptFields e = [MoodField.avg] := by simp [promptFields, h1, h2, h3]
    rw [hpf] at h
    have := List.perm_singleton.1 h
    subst this
    simp only [PromptForMetadata, runPrompts,
      show askOne MoodField.avg (toLines "x\n5\n".toList) =
        ([promptString MoodField.avg, "Unrecognized input\n", promptString MoodField.avg],
          some (5, [])) from rfl]
    exact ⟨by decide, by trivial, by trivial⟩

/-- Witness for C7 with HighMood the single unset field. -/
theorem prompter_retry_once_witness :
    (PromptForMetadata ⟨9, 2, 0, 3, [], "journal/e.md", 0⟩ [MoodField.high]
          (toLines "x\n5\n".toList)).out.count "Unrecognized input\n" = 1 ∧
      (PromptForMetadata ⟨9, 2, 0, 3, [], "journal/e.md", 0⟩ [MoodField.high]
            (toLines "x\n5\n".toList)).entry.HighMood = 5 ∧
        (PromptForMetadata ⟨9, 2, 0, 3, [], "journal/e.md", 0⟩ [MoodField.high]
              (toLines "x\n5\n".toList)).err = false :=
  (prompter_retry_once ⟨9, 2, 0, 3, [], "journal/e.md", 0⟩ [MoodField.high]
      (by decide)).1 (by decide)

/-! ## Claim C8 -/

/-- C8: read-failure propagation.  When the prompter's run ends with a read
error, the error is surfaced to the caller (the `err` flag of the result is
exactly the Go error return), the reader has been drained, and every mood
field that was already set before the failure keeps its value: the returned
entry is exactly the original with the fields of the processed prefix of
the prompt list set to the ratings accepted for them (each in 1..5, each
still holding its written value — no rollback), and fields nonzero at entry
are returned unchanged.  Conversely a read failure at the very first prompt
(empty input with at least one field to fill) does surface the error. -/
theorem prompter_read_error (e : Entry) (order : List MoodField)
    (input : List (List Char)) (h : List.Perm order (promptFields e)) :
    ((PromptForMetadata e order input).err = true →
        (PromptForMetadata e order input).rest = [] ∧
          (∃ done vals remaining,
              order = done ++ remaining ∧ remaining ≠ [] ∧
                vals.length = done.length ∧ (∀ v ∈ vals, 1 ≤ v ∧ v ≤ 5) ∧
                  (PromptForMetadata e order input).entry = applySets done vals e ∧
                    ∀ p ∈ done.zip vals,
                      getField p.1 (PromptForMetadata e order input).entry = p.2) ∧
            (e.HighMood ≠ 0 →
                (PromptForMetadata e order input).entry.HighMood = e.HighMood) ∧
              (e.LowMood ≠ 0 →
                  (PromptForMetadata e order input).entry.LowMood = e.LowMood) ∧
                (e.AverageMood ≠ 0 →
                  (PromptForMetadata e order input).entry.AverageMood = e.AverageMood)) ∧
      (input = [] → order ≠ [] → (PromptForMetadata e order input).err = true) := by
  constructor
  · intro herr
    refine ⟨runPrompts_err_rest order e input herr, ?_, ?_, ?_, ?_⟩
    · obtain ⟨done, vals, remaining, hsplit, hne, hlen, hrange, hentry⟩ :=
        runPrompts_err_progress order e input herr
      have hnd : done.Nodup := by
        have hord : order.Nodup := h.nodup_iff.2 (promptFields_nodup e)
        rw [hsplit] at hord
        exact hord.of_append_left
      refine ⟨done, vals, remaining, hsplit, hne, hlen, hrange, hentry, ?_⟩
      intro p hp
      rw [show (PromptForMetadata e order input).entry = applySets done vals e
        from hentry]
      exact applySets_getField done vals e hnd p hp
    · intro h1
      have hmem : MoodField.high ∉ order := fun hm =>
        h1 ((mem_promptFields MoodField.high e).1 (h.subset hm))
      exact runPrompts_getField_not_mem MoodField.high order e input hmem
    · intro h1
      have hmem : MoodField.low ∉ order := fun hm =>
        h1 ((mem_promptFields MoodField.low e).1 (h.subset hm))
      exact runPrompts_getField_not_mem MoodField.low order e input hmem
    · intro h1
      have hmem : MoodField.avg ∉ order := fun hm =>
        h1 ((mem_promptFields MoodField.avg e).1 (h.subset hm))
      exact runPrompts_getField_not_mem MoodField.avg order e input hmem
  · intro hin hord
    subst hin
    rcases order with _ | ⟨f, fs⟩
    · exact absurd rfl hord
    · rfl

/-- Witness for C8: empty input on an all-unset entry aborts with the read
error. -/
theorem prompter_read_error_witness :
    (PromptForMetadata zeroMoodEntry [MoodField.high, MoodField.low, MoodField.avg]
        []).err = true :=
  (prompter_read_error zeroMoodEntry [MoodField.high, MoodField.low, MoodField.avg] []
      (by decide)).2 rfl (by decide)

/-! ## Claim C9 -/

/-- C9: the prompter prompts only for fields whose value is exactly 0.  A
field holding any nonzero value — also one outside the documented domain
{1..5}, such as 200 — is not in the prompt map at all and keeps its value. -/
theorem prompter_only_zero_prompted (e : Entry) (order : List MoodField)
    (input : List (List Char)) (h : List.Perm order (promptFields e)) :
    (e.HighMood ≠ 0 → MoodField.high ∉ order ∧
        (PromptForMetadata e order input).entry.HighMood = e.HighMood) ∧
      (e.LowMood ≠ 0 → MoodField.low ∉ order ∧
          (PromptForMetadata e order input).entry.LowMood = e.LowMood) ∧
        (e.AverageMood ≠ 0 → MoodField.avg ∉ order ∧
          (PromptForMetadata e order input).entry.AverageMood = e.AverageMood) := by
  refine ⟨?_, ?_, ?_⟩
  · intro h1
    have hmem : MoodField.high ∉ order := fun hm =>
      h1 ((mem_promptFields MoodField.high e).1 (h.subset hm))
    exact ⟨hmem, runPrompts_getField_not_mem MoodField.high order e input hmem⟩
  · intro h1
    have hmem : MoodField.low ∉ order := fun hm =>
      h1 ((mem_promptFields MoodField.low e).1 (h.subset hm))
    exact ⟨hmem, runPrompts_getField_not_mem MoodField.low order e input hmem⟩
  · intro h1
    have hmem : MoodField.avg ∉ order := fun hm =>
      h1 ((mem_promptFields MoodField.avg e).1 (h.subset hm))
    exact ⟨hmem, runPrompts_getField_not_mem MoodField.avg order e input hmem⟩

/-- Witness for C9: AverageMood = 200 (outside {1..5}) is skipped and kept. -/
theorem prompter_only_zero_prompted_witness :
    MoodField.avg ∉ [MoodField.high, MoodField.low] ∧
      (PromptForMetadata ⟨0, 0, 0, 200, [], "journal/e.md", 0⟩
          [MoodField.high, MoodField.low]
          (toLines "1\n2\n".toList)).entry.AverageMood = 200 :=
  (prompter_only_zero_prompted ⟨0, 0, 0, 200, [], "journal/e.md", 0⟩
      [MoodField.high, MoodField.low] (toLines "1\n2\n".toList) (by decide)).2.2
    (by decide)

/-! ## Claim C10 -/

/-- C10: frame condition.  A prompter run never modifies Seconds, Body,
Path or ModTime (the setters touch only the three mood fields), and every
mood field is either left at its old value or holds a value in {1..5}, the
only values the setters are ever called with (a rating parsed from a line
matching `^[1-5]$`). -/
theorem prompter_frame (e : Entry) (order : List MoodField)
    (input : List (List Char)) :
    (PromptForMetadata e order input).entry.Seconds = e.Seconds ∧
      (PromptForMetadata e order input).entry.Body = e.Body ∧
        (PromptForMetadata e order input).entry.Path = e.Path ∧
          (PromptForMetadata e order input).entry.ModTime = e.ModTime ∧
            ((PromptForMetadata e order input).entry.HighMood = e.HighMood ∨
                1 ≤ (PromptForMetadata e order input).entry.HighMood ∧
                  (PromptForMetadata e order input).entry.HighMood ≤ 5) ∧
              ((PromptForMetadata e order input).entry.LowMood = e.LowMood ∨
                  1 ≤ (PromptForMetadata e order input).entry.LowMood ∧
                    (PromptForMetadata e order input).entry.LowMood ≤ 5) ∧
                ((PromptForMetadata e order input).entry.AverageMood = e.AverageMood ∨
                  1 ≤ (PromptForMetadata e order input).entry.AverageMood ∧
                    (PromptForMetadata e order input).entry.AverageMood ≤ 5) := by
  obtain ⟨f1, f2, f3, f4⟩ := runPrompts_frame order e input
  exact ⟨f1, f2, f3, f4, runPrompts_getField_or_range MoodField.high order e input,
    runPrompts_getField_or_range MoodField.low order e input,
    runPrompts_getField_or_range MoodField.avg order e input⟩

end Journalentry
